import Mathlib

/-!
Verification of the task dependency graph engine of this repository.

The engine under `src/` is the React front-end of the DAG view:
`useTaskDependencies.ts`, `TaskDagView.tsx` (and its variants among the
unnamed sources), and `dagLayout.ts`.  The front-end delegates edge
validation to the persistence service (the Rust backend, which is not
under `src/`); those parts are modelled from the specification and marked
as such.  The dagre layout library is an external collaborator: the
wrapper `getLayoutedElements` is embedded faithfully and the library's
`layout` call is an explicit function parameter, so every theorem about
the wrapper holds for every possible behaviour of the library.
-/

/-- A task id (opaque string identifier). -/
abbrev TaskId := String

/-- A dependency record as returned by the persistence service
(`TaskDependency` in `shared/types`): `task_id` depends on
`depends_on_task_id`. -/
structure TaskDependency where
  id : String
  task_id : TaskId
  depends_on_task_id : TaskId
  deriving DecidableEq, Repr

/-- The directed edge a dependency contributes to the graph, as built by
`createEdges` in `TaskDagView.tsx`: `source = depends_on_task_id`,
`target = task_id`. -/
def depEdge (d : TaskDependency) : TaskId × TaskId :=
  (d.depends_on_task_id, d.task_id)

/-- The edge set of a dependency list, viewed as a directed graph over
task ids. -/
def edgePairs (deps : List TaskDependency) : List (TaskId × TaskId) :=
  deps.map depEdge

/-- `Reaches E a b`: there is a directed path (possibly empty) from `a`
to `b` following the edges of `E`. -/
def Reaches (E : List (TaskId × TaskId)) (a b : TaskId) : Prop :=
  Relation.ReflTransGen (fun x y => (x, y) ∈ E) a b

/-- `E` has no directed cycle: no edge of `E` can be closed back by a
path. -/
def Acyclic (E : List (TaskId × TaskId)) : Prop :=
  ∀ e ∈ E, ¬ Reaches E e.2 e.1

/-- A path respecting a smaller edge set also respects a larger one. -/
lemma Reaches.mono {E E' : List (TaskId × TaskId)} {a b : TaskId}
    (hsub : ∀ e, e ∈ E → e ∈ E') (h : Reaches E a b) : Reaches E' a b :=
  Relation.ReflTransGen.mono (fun x y hxy => hsub (x, y) hxy) h

/-- Shrinking the edge set preserves acyclicity. -/
lemma Acyclic.subset {E E' : List (TaskId × TaskId)}
    (hsub : ∀ e, e ∈ E' → e ∈ E) (hA : Acyclic E) : Acyclic E' := by
  intro e he hre
  exact hA e (hsub e he) (Reaches.mono hsub hre)

/-- Decomposition of a path in `e₀ :: E`: either it avoids `e₀`, or it
reaches the tail of `e₀` and continues from its head inside `E`. -/
lemma reaches_cons {e₀ : TaskId × TaskId} {E : List (TaskId × TaskId)}
    {x y : TaskId} (h : Reaches (e₀ :: E) x y) :
    Reaches E x y ∨ (Reaches E x e₀.1 ∧ Reaches E e₀.2 y) := by
  induction h with
  | refl => exact Or.inl Relation.ReflTransGen.refl
  | tail _ hbc ih =>
    rcases List.mem_cons.mp hbc with heq | hmem
    · subst heq
      rcases ih with h1 | ⟨h1, _⟩
      · exact Or.inr ⟨h1, Relation.ReflTransGen.refl⟩
      · exact Or.inr ⟨h1, Relation.ReflTransGen.refl⟩
    · rcases ih with h1 | ⟨h1, h2⟩
      · exact Or.inl (Relation.ReflTransGen.tail h1 hmem)
      · exact Or.inr ⟨h1, Relation.ReflTransGen.tail h2 hmem⟩

/-- Adding an edge `(f, t)` to an acyclic graph keeps it acyclic,
provided `f` is not reachable from `t`. -/
lemma acyclic_insert {E : List (TaskId × TaskId)} {f t : TaskId}
    (hA : Acyclic E) (hnr : ¬ Reaches E t f) : Acyclic ((f, t) :: E) := by
  intro e he hre
  rcases List.mem_cons.mp he with heq | hmem
  · subst heq
    rcases reaches_cons hre with h1 | ⟨h1, _⟩
    · exact hnr h1
    · exact hnr h1
  · rcases reaches_cons hre with h1 | ⟨h1, h2⟩
    · exact hA e hmem h1
    · apply hnr
      have hstep : Reaches E t e.2 :=
        Relation.ReflTransGen.tail h2 (by simpa using hmem)
      exact Relation.ReflTransGen.trans hstep h1

/-- Over the empty edge set, the only paths are empty ones. -/
lemma reaches_nil {a b : TaskId} (h : Reaches [] a b) : a = b := by
  induction h with
  | refl => rfl
  | tail _ hbc _ => simp at hbc

/-- The empty edge set is acyclic. -/
lemma acyclic_nil : Acyclic ([] : List (TaskId × TaskId)) := by
  intro e he
  simp at he

/-- A dependency-creation request as sent by the front-end
(`createDependency.mutate` in `useTaskDependencies.ts`): the dependent
task and its prerequisite. -/
structure CreateReq where
  task_id : TaskId
  depends_on_task_id : TaskId
  deriving DecidableEq, Repr

/-- The edge a creation request proposes: prerequisite to dependent. -/
def reqEdge (r : CreateReq) : TaskId × TaskId :=
  (r.depends_on_task_id, r.task_id)

/-- The reasons the persistence service rejects a creation request. -/
inductive RejectKind where
  | selfDep
  | dupEdge
  | cycleEdge
  deriving DecidableEq, Repr

/-- Outcome of one request at the persistence service. -/
inductive StepOutcome where
  | created (newId : String)
  | deleted
  | rejected (k : RejectKind)
  deriving DecidableEq, Repr

/-- A mutation request issued by the front-end against the dependency
store: `createDependency` or `deleteDependency`
(`useTaskDependencies.ts`). -/
inductive DepRequest where
  | create (r : CreateReq)
  | delete (depId : String)
  deriving DecidableEq, Repr

/-- Whether a dependency with the same `(task_id, depends_on_task_id)`
pair already exists. -/
def dupExists (deps : List TaskDependency) (r : CreateReq) : Prop :=
  ∃ d ∈ deps, d.task_id = r.task_id ∧
    d.depends_on_task_id = r.depends_on_task_id

instance (deps : List TaskDependency) (r : CreateReq) :
    Decidable (dupExists deps r) := by
  unfold dupExists
  infer_instance

/-- Modelled from the spec: the server-side dependency validation of the
persistence service (the Rust backend, which is not under `src/`).
Per the spec it rejects a proposed edge when the endpoints coincide,
when the same `(from, to)` pair already exists, or when a directed path
from the dependent back to the prerequisite would close a cycle;
otherwise it stores a new record under a server-assigned id.  Deletion
is unconditional removal by id.  Every rejection leaves the stored
dependency list unchanged. -/
inductive ServerStep :
    List TaskDependency → DepRequest → List TaskDependency → StepOutcome → Prop where
  | createSelf {deps : List TaskDependency} {r : CreateReq}
      (hself : r.depends_on_task_id = r.task_id) :
      ServerStep deps (.create r) deps (.rejected .selfDep)
  | createDup {deps : List TaskDependency} {r : CreateReq}
      (hne : r.depends_on_task_id ≠ r.task_id)
      (hdup : dupExists deps r) :
      ServerStep deps (.create r) deps (.rejected .dupEdge)
  | createCycle {deps : List TaskDependency} {r : CreateReq}
      (hne : r.depends_on_task_id ≠ r.task_id)
      (hnd : ¬ dupExists deps r)
      (hcyc : Reaches (edgePairs deps) r.task_id r.depends_on_task_id) :
      ServerStep deps (.create r) deps (.rejected .cycleEdge)
  | createOk {deps : List TaskDependency} {r : CreateReq} (newId : String)
      (hne : r.depends_on_task_id ≠ r.task_id)
      (hnd : ¬ dupExists deps r)
      (hnc : ¬ Reaches (edgePairs deps) r.task_id r.depends_on_task_id) :
      ServerStep deps (.create r)
        ({ id := newId, task_id := r.task_id,
           depends_on_task_id := r.depends_on_task_id } :: deps)
        (.created newId)
  | deleteStep {deps : List TaskDependency} {depId : String} :
      ServerStep deps (.delete depId)
        (deps.filter (fun d => d.id ≠ depId)) .deleted

/-- A sequence of requests processed by the persistence service. -/
inductive ServerRun :
    List TaskDependency → List DepRequest → List TaskDependency → Prop where
  | nil {deps : List TaskDependency} : ServerRun deps [] deps
  | cons {deps deps' deps'' : List TaskDependency} {q : DepRequest}
      {qs : List DepRequest} {o : StepOutcome}
      (hstep : ServerStep deps q deps' o)
      (hrun : ServerRun deps' qs deps'') :
      ServerRun deps (q :: qs) deps''

/-- A single accepted creation preserves acyclicity; every other step
leaves the edge set equal or smaller. -/
lemma serverStep_preserves_acyclic
    {deps deps' : List TaskDependency} {q : DepRequest} {o : StepOutcome}
    (hstep : ServerStep deps q deps' o)
    (hA : Acyclic (edgePairs deps)) : Acyclic (edgePairs deps') := by
  cases hstep with
  | createSelf hself => exact hA
  | createDup hne hdup => exact hA
  | createCycle hne hnd hcyc => exact hA
  | createOk newId hne hnd hnc =>
    simpa [edgePairs, depEdge] using acyclic_insert hA hnc
  | deleteStep =>
    apply Acyclic.subset (E := edgePairs deps) _ hA
    intro e he
    simp only [edgePairs, List.mem_map] at he ⊢
    obtain ⟨d, hd, rfl⟩ := he
    exact ⟨d, List.mem_of_mem_filter hd, rfl⟩

/-- Every record in the store after a step is either an old record or
the record of the step's own accepted creation request. -/
lemma serverStep_mem {deps deps' : List TaskDependency} {q : DepRequest}
    {o : StepOutcome} (hstep : ServerStep deps q deps' o) :
    ∀ d ∈ deps', d ∈ deps ∨
      ∃ r : CreateReq, q = .create r ∧ d.task_id = r.task_id ∧
        d.depends_on_task_id = r.depends_on_task_id := by
  intro d hd
  cases hstep with
  | createSelf hself => exact Or.inl hd
  | createDup hne hdup => exact Or.inl hd
  | createCycle hne hnd hcyc => exact Or.inl hd
  | createOk newId hne hnd hnc =>
    rcases List.mem_cons.mp hd with heq | hmem
    · subst heq
      exact Or.inr ⟨_, rfl, rfl, rfl⟩
    · exact Or.inl hmem
  | deleteStep => exact Or.inl (List.mem_of_mem_filter hd)

/-- One-step case analysis of a path. -/
lemma reaches_head_cases {E : List (TaskId × TaskId)} {a b : TaskId}
    (h : Reaches E a b) : a = b ∨ ∃ c, (a, c) ∈ E ∧ Reaches E c b :=
  Relation.ReflTransGen.cases_head h

/-- An edge id, modelled as its character list. -/
abbrev EdgeId := List Char

/-- The `"dep-"` marker the front-end puts in front of a dependency id
when it builds an edge id. -/
def depIdTag : EdgeId := ['d', 'e', 'p', '-']

/-- `createEdgeIdFromDependency` from `useTaskDependencies.ts`:
the edge id is the string `"dep-"` followed by the dependency id. -/
def createEdgeIdFromDependency (d : TaskDependency) : EdgeId :=
  depIdTag ++ d.id.toList

/-- `getDependencyIdFromEdgeId` from `useTaskDependencies.ts`: if the
edge id starts with `"dep-"`, return everything after the first four
characters, otherwise `null`. -/
def getDependencyIdFromEdgeId (edgeId : EdgeId) : Option EdgeId :=
  if depIdTag.isPrefixOf edgeId then some (edgeId.drop 4) else none

/-- A React Flow edge as produced by `createEdges` (marker and delete
callback are presentation-only and omitted). -/
structure FlowEdge where
  id : EdgeId
  source : TaskId
  target : TaskId
  deriving DecidableEq, Repr

/-- `createEdges` from `TaskDagView.tsx`: each dependency becomes the
edge `depends_on_task_id → task_id`. -/
def createEdges (deps : List TaskDependency) : List FlowEdge :=
  deps.map fun d =>
    { id := createEdgeIdFromDependency d,
      source := d.depends_on_task_id,
      target := d.task_id }

/-- The alert text of the `onError` handler of `createDependency` in
`useTaskDependencies.ts` for a 409 conflict. -/
def conflictAlertMessage : String :=
  "Cannot create dependency: This would create a circular dependency or the dependency already exists."

/-- The `onError` handler of `createDependency` in
`useTaskDependencies.ts`: it only raises an alert (the second
component); the edge list held by the client is not touched. -/
def createDependencyOnError (edges : List FlowEdge) (status : Nat)
    (message : String) : List FlowEdge × String :=
  if status = 409 then (edges, conflictAlertMessage)
  else (edges, "Failed to create dependency: " ++ message)

/-- The `onSuccess` handler of `createDependency`: it invalidates the
dependency query, so the client refetches and its edges become
`createEdges` of the server's list. -/
def createDependencyOnSuccess (serverDeps : List TaskDependency) :
    List FlowEdge :=
  createEdges serverDeps

/-- C1: For every sequence of edge-addition (and deletion) requests
processed by the dependency store, starting from an acyclic state, only
the accepted creations enter the dependency list, and the resulting
edge set — each dependency contributing the edge
`depends_on_task_id → task_id` per `createEdges` — contains no directed
cycle.  Since the statement quantifies over all runs, every prefix of a
run (any point in time) is covered, so every mutation path preserves
acyclicity. -/
theorem c1_accepted_edges_acyclic :
    ∀ (deps₀ deps₁ : List TaskDependency) (reqs : List DepRequest),
    ServerRun deps₀ reqs deps₁ → Acyclic (edgePairs deps₀) →
    Acyclic (edgePairs deps₁) ∧
      ∀ d ∈ deps₁, d ∈ deps₀ ∨
        ∃ r : CreateReq, DepRequest.create r ∈ reqs ∧
          d.task_id = r.task_id ∧
          d.depends_on_task_id = r.depends_on_task_id := by
  intro deps₀ deps₁ reqs hrun hA
  induction hrun with
  | nil => exact ⟨hA, fun d hd => Or.inl hd⟩
  | cons hstep hrun ih =>
    have hA' := serverStep_preserves_acyclic hstep hA
    obtain ⟨hAfin, hmem⟩ := ih hA'
    refine ⟨hAfin, fun d hd => ?_⟩
    rcases hmem d hd with hold | ⟨r, hr, h1, h2⟩
    · rcases serverStep_mem hstep d hold with h | ⟨r, hq, h1, h2⟩
      · exact Or.inl h
      · exact Or.inr ⟨r, by simp [hq], h1, h2⟩
    · exact Or.inr ⟨r, List.mem_cons_of_mem _ hr, h1, h2⟩

/-- Witness for C1: the spec's scenario 1.  Starting from an empty
store, `(A,B)` then `(B,C)` are accepted and `(C,A)` is rejected as
cycle-forming; the final edge set is exactly `{(A,B), (B,C)}` and it is
acyclic. -/
theorem c1_accepted_edges_acyclic_witness :
    Acyclic (edgePairs [⟨"2", "C", "B"⟩, ⟨"1", "B", "A"⟩]) := by
  have h1 : ¬ Reaches (edgePairs ([] : List TaskDependency)) "B" "A" :=
    fun h => absurd (reaches_nil h) (by decide)
  have h2 : ¬ Reaches (edgePairs [⟨"1", "B", "A"⟩]) "C" "B" := by
    intro h
    rcases reaches_head_cases h with heq | ⟨c, hc, -⟩
    · exact absurd heq (by decide)
    · simp [edgePairs, depEdge] at hc
  have h3 : Reaches (edgePairs [⟨"2", "C", "B"⟩, ⟨"1", "B", "A"⟩]) "A" "C" := by
    have hab : ("A", "B") ∈ edgePairs [⟨"2", "C", "B"⟩, ⟨"1", "B", "A"⟩] := by
      simp [edgePairs, depEdge]
    have hbc : ("B", "C") ∈ edgePairs [⟨"2", "C", "B"⟩, ⟨"1", "B", "A"⟩] := by
      simp [edgePairs, depEdge]
    exact Relation.ReflTransGen.tail
      (Relation.ReflTransGen.tail Relation.ReflTransGen.refl hab) hbc
  have hrun : ServerRun []
      [.create ⟨"B", "A"⟩, .create ⟨"C", "B"⟩, .create ⟨"A", "C"⟩]
      [⟨"2", "C", "B"⟩, ⟨"1", "B", "A"⟩] :=
    ServerRun.cons (ServerStep.createOk "1" (by decide) (by decide) h1)
      (ServerRun.cons (ServerStep.createOk "2" (by decide) (by decide) h2)
        (ServerRun.cons (ServerStep.createCycle (by decide) (by decide) h3)
          ServerRun.nil))
  exact (c1_accepted_edges_acyclic [] _ _ hrun acyclic_nil).1

/-- C2: Whenever the persistence service rejects a creation request
(duplicate, cycle, or self-dependency), the server's dependency list is
unchanged; the client's `onError` handler leaves the client edge list
exactly as it was before the attempt and surfaces the failure through
the 409-conflict alert; the client's edge list therefore still equals
`createEdges` of the server's list — the two stores agree. -/
theorem c2_rejected_create_rolls_back :
    ∀ (deps deps' : List TaskDependency) (r : CreateReq) (k : RejectKind)
      (status : Nat) (message : String),
    ServerStep deps (.create r) deps' (.rejected k) →
    deps' = deps ∧
    (createDependencyOnError (createEdges deps) status message).1 =
      createEdges deps ∧
    (createDependencyOnError (createEdges deps) 409 message).2 =
      conflictAlertMessage ∧
    createEdges deps' = createEdges deps := by
  intro deps deps' r k status message hstep
  have hdeps : deps' = deps := by
    cases hstep with
    | createSelf hself => rfl
    | createDup hne hdup => rfl
    | createCycle hne hnd hcyc => rfl
  refine ⟨hdeps, ?_, ?_, by rw [hdeps]⟩
  · unfold createDependencyOnError
    split <;> rfl
  · unfold createDependencyOnError
    simp

/-- Witness for C2: the self-dependency request `(A,A)` against a
one-record store is rejected; the store and the client edge list are
unchanged and the conflict alert is raised. -/
theorem c2_rejected_create_rolls_back_witness :
    createEdges [⟨"1", "B", "A"⟩] = createEdges [⟨"1", "B", "A"⟩] ∧
    (createDependencyOnError (createEdges [⟨"1", "B", "A"⟩]) 409 "").2 =
      conflictAlertMessage := by
  have h := c2_rejected_create_rolls_back [⟨"1", "B", "A"⟩] [⟨"1", "B", "A"⟩]
    ⟨"A", "A"⟩ .selfDep 409 "" (ServerStep.createSelf rfl)
  exact ⟨h.2.2.2, h.2.2.1⟩

/-- A React Flow `Connection`: nullable source and target node ids. -/
structure Connection where
  source : Option TaskId
  target : Option TaskId
  deriving DecidableEq, Repr

/-- `onConnect` from `TaskDagView.tsx`: if either endpoint is missing
(null or empty, i.e. falsy) nothing happens; otherwise a creation
request is sent with `task_id = target` and
`depends_on_task_id = source`.  There is no check that the two
endpoints differ. -/
def onConnect (c : Connection) : Option CreateReq :=
  match c.source, c.target with
  | some s, some t =>
      if s = "" ∨ t = "" then none
      else some { task_id := t, depends_on_task_id := s }
  | _, _ => none

/-- Counterexample for C3: connecting a node to itself is not rejected
locally; `onConnect` issues a creation request to the remote
persistence service, so I/O is performed for a self-dependency. -/
theorem c3_counterexample :
    onConnect { source := some "A", target := some "A" } =
      some { task_id := "A", depends_on_task_id := "A" } ∧
    onConnect { source := some "A", target := some "A" } ≠ none := by
  constructor
  · rfl
  · decide

/-- C3 (amended): a self-connection is not filtered before I/O: the
front-end forwards it to the remote persistence service as an ordinary
creation request.  The rejection happens remotely — the (spec-modelled)
service refuses the self-dependency, necessarily leaving the dependency
list unchanged — so no store mutation results, but the remote call is
made. -/
theorem c3_self_connection_forwarded :
    ∀ (a : TaskId) (deps : List TaskDependency), a ≠ "" →
    onConnect { source := some a, target := some a } =
      some { task_id := a, depends_on_task_id := a } ∧
    ServerStep deps (.create { task_id := a, depends_on_task_id := a })
      deps (.rejected .selfDep) ∧
    (∀ (deps' : List TaskDependency) (o : StepOutcome),
      ServerStep deps (.create { task_id := a, depends_on_task_id := a })
        deps' o →
      deps' = deps ∧ o = .rejected .selfDep) := by
  intro a deps ha
  refine ⟨by simp [onConnect, ha], ServerStep.createSelf rfl, ?_⟩
  intro deps' o hstep
  cases hstep with
  | createSelf hself => exact ⟨rfl, rfl⟩
  | createDup hne hdup => exact absurd rfl hne
  | createCycle hne hnd hcyc => exact absurd rfl hne
  | createOk newId hne hnd hnc => exact absurd rfl hne

/-- Witness for C3's amended theorem at the concrete id `"A"`. -/
theorem c3_self_connection_forwarded_witness :
    onConnect { source := some "A", target := some "A" } =
      some { task_id := "A", depends_on_task_id := "A" } :=
  (c3_self_connection_forwarded "A" [] (by decide)).1

/-- The four layout directions of `dagLayout.ts`. -/
inductive Direction where
  | TB | BT | LR | RL
  deriving DecidableEq, Repr

/-- The layout options interface of `dagLayout.ts`; all fields
optional. -/
structure LayoutOptions where
  direction : Option Direction := none
  nodeSpacing : Option Int := none
  rankSpacing : Option Int := none
  deriving DecidableEq, Repr

/-- A React Flow node as `getLayoutedElements` sees it: an id, a
position, and an opaque payload (the task data and node type, carried
through untouched). -/
structure FlowNode where
  id : TaskId
  position : Int × Int
  payload : String
  deriving DecidableEq, Repr

/-- `NODE_WIDTH` from `dagLayout.ts`. -/
def NODE_WIDTH : Int := 280

/-- `NODE_HEIGHT` from `dagLayout.ts`. -/
def NODE_HEIGHT : Int := 100

/-- Exactly the data `getLayoutedElements` feeds to the dagre graph:
the resolved options (with the defaults of `dagLayout.ts`), the fixed
margins, one entry of fixed width/height per node id, and the edge
pairs.  The input positions of the nodes are never passed to dagre. -/
structure DagreGraphInput where
  rankdir : Direction
  nodesep : Int
  ranksep : Int
  marginx : Int
  marginy : Int
  nodeIds : List TaskId
  edgeList : List (TaskId × TaskId)
  deriving DecidableEq, Repr

/-- The dagre graph built by `getLayoutedElements` before calling
`dagre.layout`. -/
def buildDagreInput (nodes : List FlowNode) (edges : List FlowEdge)
    (opts : LayoutOptions) : DagreGraphInput :=
  { rankdir := opts.direction.getD .TB,
    nodesep := opts.nodeSpacing.getD 50,
    ranksep := opts.rankSpacing.getD 100,
    marginx := 50,
    marginy := 50,
    nodeIds := nodes.map (·.id),
    edgeList := edges.map fun e => (e.source, e.target) }

/-- The per-node step of `getLayoutedElements`: look the node up in the
laid-out dagre graph (`engine g n.id` stands for `dagreGraph.node`);
if absent return the node unchanged, otherwise overwrite its position
with the dagre centre shifted by half the node extent. -/
def applyDagrePosition (engine : DagreGraphInput → TaskId → Option (Int × Int))
    (g : DagreGraphInput) (n : FlowNode) : FlowNode :=
  match engine g n.id with
  | none => n
  | some c => { n with position := (c.1 - NODE_WIDTH / 2, c.2 - NODE_HEIGHT / 2) }

/-- `getLayoutedElements` from `dagLayout.ts`, with the external dagre
library's `layout` call abstracted as the `engine` parameter: every
theorem below therefore holds for every possible behaviour of the
library. -/
def getLayoutedElements
    (engine : DagreGraphInput → TaskId → Option (Int × Int))
    (nodes : List FlowNode) (edges : List FlowEdge)
    (opts : LayoutOptions) : List FlowNode :=
  nodes.map (applyDagrePosition engine (buildDagreInput nodes edges opts))

/-- `E` contains a directed cycle. -/
def HasCycle (E : List (TaskId × TaskId)) : Prop :=
  ∃ e ∈ E, Reaches E e.2 e.1

/-- The per-node layout step never changes a node's id. -/
lemma applyDagrePosition_id (engine : DagreGraphInput → TaskId → Option (Int × Int))
    (g : DagreGraphInput) (n : FlowNode) :
    (applyDagrePosition engine g n).id = n.id := by
  rcases h : engine g n.id with _ | c <;> simp [applyDagrePosition, h]

/-- The per-node layout step never changes a node's payload. -/
lemma applyDagrePosition_payload
    (engine : DagreGraphInput → TaskId → Option (Int × Int))
    (g : DagreGraphInput) (n : FlowNode) :
    (applyDagrePosition engine g n).payload = n.payload := by
  rcases h : engine g n.id with _ | c <;> simp [applyDagrePosition, h]

/-- The per-node layout step is idempotent. -/
lemma applyDagrePosition_idem
    (engine : DagreGraphInput → TaskId → Option (Int × Int))
    (g : DagreGraphInput) (n : FlowNode) :
    applyDagrePosition engine g (applyDagrePosition engine g n) =
      applyDagrePosition engine g n := by
  have hid := applyDagrePosition_id engine g n
  rcases h : engine g n.id with _ | c
  · simp [applyDagrePosition, h]
  · simp [applyDagrePosition, h]

/-- The dagre graph built from already-laid-out nodes is the same
graph: only the node ids enter it, and layout preserves them. -/
lemma buildDagreInput_layouted
    (engine : DagreGraphInput → TaskId → Option (Int × Int))
    (g : DagreGraphInput) (nodes : List FlowNode) (edges : List FlowEdge)
    (opts : LayoutOptions) :
    buildDagreInput (nodes.map (applyDagrePosition engine g)) edges opts =
      buildDagreInput nodes edges opts := by
  simp [buildDagreInput, List.map_map, Function.comp_def, applyDagrePosition_id]

/-- Counterexample for C4: `getLayoutedElements` does not fail fast on a
cyclic input and does not return the previous positions unchanged.  Its
result type has no error value at all, and on the concrete cyclic graph
with the self-edge `A → A` (here under a concrete engine behaviour) it
returns freshly computed coordinates instead of the input ones. -/
theorem c4_counterexample :
    ¬ (∀ (engine : DagreGraphInput → TaskId → Option (Int × Int))
        (nodes : List FlowNode) (edges : List FlowEdge)
        (opts : LayoutOptions),
        HasCycle (edges.map fun e => (e.source, e.target)) →
        getLayoutedElements engine nodes edges opts = nodes) := by
  intro h
  have hcyc :
      HasCycle (([⟨['e'], "A", "A"⟩] : List FlowEdge).map
        fun e => (e.source, e.target)) :=
    ⟨("A", "A"), by simp, Relation.ReflTransGen.refl⟩
  have heq := h (fun _ _ => some (0, 0)) [⟨"A", (999, 999), ""⟩]
    [⟨['e'], "A", "A"⟩] {} hcyc
  exact absurd heq (by decide)

/-- C4 (amended): `getLayoutedElements` performs no cycle check and has
no failure channel.  For every behaviour of the dagre engine that
assigns coordinates to the graph's nodes, and for every input
containing a directed cycle, the call still terminates with one output
node per input node (ids and payloads untouched), and its result is
determined by the node ids, edges and options alone — the input
positions are never read, so the previous positions are not restored. -/
theorem c4_cyclic_layout_returns_fresh_positions :
    ∀ (engine : DagreGraphInput → TaskId → Option (Int × Int)),
    (∀ (g : DagreGraphInput) (i : TaskId), i ∈ g.nodeIds →
      (engine g i).isSome) →
    ∀ (nodes : List FlowNode) (edges : List FlowEdge)
      (opts : LayoutOptions),
    HasCycle (edges.map fun e => (e.source, e.target)) →
    (getLayoutedElements engine nodes edges opts).map
        (fun n => (n.id, n.payload)) =
      nodes.map (fun n => (n.id, n.payload)) ∧
    getLayoutedElements engine nodes edges opts =
      getLayoutedElements engine
        (nodes.map fun n => { n with position := (0, 0) }) edges opts := by
  intro engine htotal nodes edges opts _
  constructor
  · simp [getLayoutedElements, List.map_map, Function.comp_def,
      applyDagrePosition_id, applyDagrePosition_payload]
  · have hg : buildDagreInput (nodes.map fun n => { n with position := ((0 : Int), (0 : Int)) }) edges opts =
        buildDagreInput nodes edges opts := by
      simp [buildDagreInput, List.map_map, Function.comp_def]
    unfold getLayoutedElements
    rw [hg, List.map_map]
    apply List.map_congr_left
    intro n hn
    have hmem : n.id ∈ (buildDagreInput nodes edges opts).nodeIds := by
      simp [buildDagreInput]
      exact ⟨n, hn, rfl⟩
    rcases hsome : engine (buildDagreInput nodes edges opts) n.id with _ | c
    · have := htotal _ _ hmem
      rw [hsome] at this
      simp at this
    · simp [Function.comp_def, applyDagrePosition, hsome]

/-- Witness for C4's amended theorem: a concrete total engine and the
concrete two-node cycle `A → B → A`; the output carries the input ids
and ignores the input positions. -/
theorem c4_cyclic_layout_returns_fresh_positions_witness :
    (getLayoutedElements (fun _ _ => some (3, 4))
        [⟨"A", (999, 999), "a"⟩, ⟨"B", (-5, 7), "b"⟩]
        [⟨['e'], "A", "B"⟩, ⟨['f'], "B", "A"⟩] {}).map
        (fun n => (n.id, n.payload)) =
      [("A", "a"), ("B", "b")] := by
  have hcyc : HasCycle (([⟨['e'], "A", "B"⟩, ⟨['f'], "B", "A"⟩] :
      List FlowEdge).map fun e => (e.source, e.target)) := by
    refine ⟨("A", "B"), by simp, ?_⟩
    exact Relation.ReflTransGen.single (by simp)
  have h := c4_cyclic_layout_returns_fresh_positions
    (fun _ _ => some (3, 4)) (fun _ _ _ => rfl)
    [⟨"A", (999, 999), "a"⟩, ⟨"B", (-5, 7), "b"⟩]
    [⟨['e'], "A", "B"⟩, ⟨['f'], "B", "A"⟩] {} hcyc
  rw [h.1]
  rfl

/-- C5: the layout is deterministic — as a pure function of its input
it trivially returns identical coordinates on identical input — and
re-layout without intervening mutation is idempotent: laying out the
already laid-out nodes again (same edges, same configuration) returns
exactly the same node list, because the coordinates depend only on the
node ids, edges and options, all of which layout preserves. -/
theorem c5_layout_deterministic_idempotent :
    ∀ (engine : DagreGraphInput → TaskId → Option (Int × Int))
      (nodes : List FlowNode) (edges : List FlowEdge)
      (opts : LayoutOptions),
    getLayoutedElements engine nodes edges opts =
      getLayoutedElements engine nodes edges opts ∧
    getLayoutedElements engine
        (getLayoutedElements engine nodes edges opts) edges opts =
      getLayoutedElements engine nodes edges opts := by
  intro engine nodes edges opts
  refine ⟨rfl, ?_⟩
  unfold getLayoutedElements
  rw [buildDagreInput_layouted, List.map_map]
  apply List.map_congr_left
  intro n _
  exact applyDagrePosition_idem engine _ n

/-- C6: the layout never invents or drops nodes: the output has exactly
one node per input node, in order, with the same id and the same
payload — so every input node id receives exactly one position and no
id absent from the input appears. -/
theorem c6_layout_one_position_per_node :
    ∀ (engine : DagreGraphInput → TaskId → Option (Int × Int))
      (nodes : List FlowNode) (edges : List FlowEdge)
      (opts : LayoutOptions),
    (getLayoutedElements engine nodes edges opts).map
        (fun n => (n.id, n.payload)) =
      nodes.map (fun n => (n.id, n.payload)) ∧
    (getLayoutedElements engine nodes edges opts).length = nodes.length := by
  intro engine nodes edges opts
  constructor
  · simp [getLayoutedElements, List.map_map, Function.comp_def,
      applyDagrePosition_id, applyDagrePosition_payload]
  · simp [getLayoutedElements]

/-- A task as the DAG view sees it: `TaskWithAttemptStatus` from
`shared/types`, restricted to the fields the engine reads or writes. -/
structure TaskWithAttemptStatus where
  id : TaskId
  title : String
  description : String
  status : String
  parent_workspace_id : String
  image_ids : List String
  created_at : Nat
  dag_position_x : Option Int
  dag_position_y : Option Int
  deriving DecidableEq, Repr

/-- The classifier condition of the `dagTasks/poolTasks` memo in the
DAG view (unnamed source, lines 185–199): a task is in the DAG iff both
stored coordinates are non-null. -/
def isPlaced (t : TaskWithAttemptStatus) : Bool :=
  t.dag_position_x.isSome && t.dag_position_y.isSome

/-- The `dagTasks/poolTasks` classification loop: each task goes to the
DAG list when `isPlaced`, otherwise to the pool list, preserving
order. -/
def classifyTasks :
    List TaskWithAttemptStatus →
      List TaskWithAttemptStatus × List TaskWithAttemptStatus
  | [] => ([], [])
  | t :: rest =>
    if isPlaced t then
      (t :: (classifyTasks rest).1, (classifyTasks rest).2)
    else ((classifyTasks rest).1, t :: (classifyTasks rest).2)

/-- The classification is the pair of filters by `isPlaced`. -/
lemma classifyTasks_eq_filter (tasks : List TaskWithAttemptStatus) :
    classifyTasks tasks =
      (tasks.filter isPlaced, tasks.filter fun t => !isPlaced t) := by
  induction tasks with
  | nil => rfl
  | cons t rest ih =>
    rcases hp : isPlaced t <;>
      simp [classifyTasks, hp, ih, List.filter_cons]

/-- C7: a task's classification is exactly determined by the presence
of its stored position: it lands in the visible DAG list iff both
coordinates are present, and in the pool list iff not; `isPlaced` is by
definition the presence of the stored position, and the classification
is a pure function of the task list, so no separate state can drift
from it. -/
theorem c7_placed_iff_position_present :
    ∀ (tasks : List TaskWithAttemptStatus) (t : TaskWithAttemptStatus),
    (t ∈ (classifyTasks tasks).1 ↔ t ∈ tasks ∧ isPlaced t = true) ∧
    (t ∈ (classifyTasks tasks).2 ↔ t ∈ tasks ∧ isPlaced t = false) ∧
    isPlaced t = (t.dag_position_x.isSome && t.dag_position_y.isSome) := by
  intro tasks t
  rw [classifyTasks_eq_filter]
  refine ⟨?_, ?_, rfl⟩
  · simp [List.mem_filter]
  · simp [List.mem_filter]

/-- The update payload of `tasksApi.update` / `updateTask.mutate` as the
DAG view sends it. -/
structure UpdateTaskData where
  title : Option String
  description : Option String
  status : Option String
  parent_workspace_id : Option String
  image_ids : Option (List String)
  dag_position_x : Option Int
  dag_position_y : Option Int
  clear_dag_position : Bool
  deriving DecidableEq, Repr

/-- Keep the old optional value unless the update supplies a new one. -/
def orKeep (newVal oldVal : Option Int) : Option Int :=
  match newVal with
  | some v => some v
  | none => oldVal

/-- Modelled from the spec: the task-update endpoint of the persistence
service (the Rust backend, not under `src/`).  Per the spec the engine
owns only the position fields: fields sent as null are left unchanged,
and a clear request (`null` coordinates with the clear flag) moves the
task to the pool by erasing both coordinates.  Dependencies are not
touched by a task update. -/
def applyUpdateData (t : TaskWithAttemptStatus)
    (d : UpdateTaskData) : TaskWithAttemptStatus :=
  { t with
    title := d.title.getD t.title,
    description := d.description.getD t.description,
    status := d.status.getD t.status,
    parent_workspace_id := d.parent_workspace_id.getD t.parent_workspace_id,
    image_ids := d.image_ids.getD t.image_ids,
    dag_position_x :=
      if d.clear_dag_position then none
      else orKeep d.dag_position_x t.dag_position_x,
    dag_position_y :=
      if d.clear_dag_position then none
      else orKeep d.dag_position_y t.dag_position_y }

/-- The engine's state: the task list and the dependency list. -/
structure AppState where
  tasks : List TaskWithAttemptStatus
  deps : List TaskDependency
  deriving DecidableEq, Repr

/-- Apply a task update to the state: only the addressed task changes. -/
def applyTaskUpdate (s : AppState) (taskId : TaskId)
    (d : UpdateTaskData) : AppState :=
  { s with
    tasks := s.tasks.map fun t =>
      if t.id = taskId then applyUpdateData t d else t }

/-- The exact payload `handleNodeDragStop` sends to clear a position:
all content fields null, both coordinates null, clear flag set. -/
def clearDagPositionData : UpdateTaskData :=
  { title := none, description := none, status := none,
    parent_workspace_id := none, image_ids := none,
    dag_position_x := none, dag_position_y := none,
    clear_dag_position := true }

/-- `handleNodeDragStop` from the DAG view (unnamed source, lines
438–462): when the node was dropped over the sidebar, issue the
clear-position update for that node; otherwise do nothing.  No
dependency mutation is ever issued here. -/
def handleNodeDragStop (overSidebar : Bool) (nodeId : TaskId) :
    Option (TaskId × UpdateTaskData) :=
  if overSidebar then some (nodeId, clearDagPositionData) else none

/-- The placed-to-pool transition as a whole: the drag-stop handler's
request applied to the state. -/
def processDragStop (s : AppState) (overSidebar : Bool)
    (nodeId : TaskId) : AppState :=
  match handleNodeDragStop overSidebar nodeId with
  | some (tid, d) => applyTaskUpdate s tid d
  | none => s

/-- C8: clearing a placed task's position (dropping it on the sidebar)
leaves the dependency list untouched, changes nothing but the two
position fields of that one task (title, description, status and the
rest are preserved, other tasks are unchanged), and afterwards the task
is classified pooled. -/
theorem c8_clear_position_keeps_edges :
    ∀ (s : AppState) (nodeId : TaskId),
    (processDragStop s true nodeId).deps = s.deps ∧
    (processDragStop s true nodeId).tasks =
      s.tasks.map (fun t =>
        if t.id = nodeId then
          { t with dag_position_x := none, dag_position_y := none }
        else t) ∧
    (∀ t ∈ (processDragStop s true nodeId).tasks,
      t.id = nodeId → isPlaced t = false) := by
  intro s nodeId
  have hdata : ∀ t : TaskWithAttemptStatus,
      applyUpdateData t clearDagPositionData =
        { t with dag_position_x := none, dag_position_y := none } := by
    intro t
    simp [applyUpdateData, clearDagPositionData]
  refine ⟨rfl, ?_, ?_⟩
  · simp only [processDragStop, handleNodeDragStop, if_pos trivial,
      applyTaskUpdate]
    apply List.map_congr_left
    intro t _
    by_cases ht : t.id = nodeId <;> simp [ht, hdata]
  · intro t hmem hid
    simp only [processDragStop, handleNodeDragStop, if_pos trivial,
      applyTaskUpdate, List.mem_map] at hmem
    obtain ⟨t₀, _, rfl⟩ := hmem
    by_cases ht : t₀.id = nodeId
    · simp [ht, hdata, isPlaced]
    · rw [if_neg ht] at hid ⊢
      exact absurd hid ht

/-- Witness for C8: the spec's scenario 5 — task `X` placed at
`(10, 10)` with an edge attached; after clearing, the edge is still
there and `X` is pooled. -/
theorem c8_clear_position_keeps_edges_witness :
    (processDragStop
        ⟨[⟨"X", "t", "", "todo", "", [], 0, some 10, some 10⟩],
         [⟨"1", "Y", "X"⟩]⟩ true "X").deps = [⟨"1", "Y", "X"⟩] ∧
    (processDragStop
        ⟨[⟨"X", "t", "", "todo", "", [], 0, some 10, some 10⟩],
         [⟨"1", "Y", "X"⟩]⟩ true "X").tasks =
      [⟨"X", "t", "", "todo", "", [], 0, none, none⟩] := by
  have h := c8_clear_position_keeps_edges
    ⟨[⟨"X", "t", "", "todo", "", [], 0, some 10, some 10⟩],
     [⟨"1", "Y", "X"⟩]⟩ "X"
  refine ⟨h.1, ?_⟩
  rw [h.2.1]
  rfl

/-- The exact payload `handleDrop` sends to place a task at the drop
position: all content fields null, both coordinates set, clear flag
false. -/
def setDagPositionData (pos : Int × Int) : UpdateTaskData :=
  { title := none, description := none, status := none,
    parent_workspace_id := none, image_ids := none,
    dag_position_x := some pos.1, dag_position_y := some pos.2,
    clear_dag_position := false }

/-- `handleDrop` from the DAG view (unnamed source, lines 348–393):
ignore the drop when the transferred task id is falsy or no pool task
carries it; otherwise issue the position update for the dragged task,
and, when the drop landed on an existing node with a truthy id
different from the dragged task's, additionally issue a dependency
creation with `task_id` the dragged task and `depends_on_task_id` the
drop target. -/
def handleDrop (draggedId : TaskId) (pool : List TaskWithAttemptStatus)
    (dropPos : Int × Int) (targetNodeId : Option TaskId) :
    Option (TaskId × UpdateTaskData) × Option CreateReq :=
  if draggedId = "" then (none, none)
  else
    match pool.find? (fun t => t.id == draggedId) with
    | none => (none, none)
    | some _ =>
      ( some (draggedId, setDagPositionData dropPos),
        match targetNodeId with
        | some tid =>
          if tid ≠ "" ∧ tid ≠ draggedId then
            some { task_id := draggedId, depends_on_task_id := tid }
          else none
        | none => none )

/-- C9: dropping a pooled task onto an existing placed node with a
different id always issues the dependency request in the same fixed
direction: the dragged (dropped) task is the dependent
(`task_id = draggedId`) and the drop target is the prerequisite
(`depends_on_task_id = targetNodeId`); the position update for the
dragged task is issued as well. -/
theorem c9_drop_creates_dependent_edge :
    ∀ (draggedId : TaskId) (pool : List TaskWithAttemptStatus)
      (dropPos : Int × Int) (tid : TaskId),
    draggedId ≠ "" →
    (∃ t ∈ pool, t.id = draggedId) →
    tid ≠ "" → tid ≠ draggedId →
    (handleDrop draggedId pool dropPos (some tid)).2 =
      some { task_id := draggedId, depends_on_task_id := tid } ∧
    (handleDrop draggedId pool dropPos (some tid)).1 =
      some (draggedId, setDagPositionData dropPos) := by
  intro draggedId pool dropPos tid hd hex ht1 ht2
  have hfind : (pool.find? (fun t => t.id == draggedId)).isSome := by
    rw [List.find?_isSome]
    obtain ⟨t, htmem, hteq⟩ := hex
    exact ⟨t, htmem, by simp [hteq]⟩
  rcases hf : pool.find? (fun t => t.id == draggedId) with _ | t₀
  · rw [hf] at hfind
    simp at hfind
  · constructor <;> simp [handleDrop, hd, hf, ht1, ht2]

/-- Witness for C9: a concrete pooled task `X` dropped at `(5, 6)` onto
node `Y`; the created dependency says `X` depends on `Y`. -/
theorem c9_drop_creates_dependent_edge_witness :
    (handleDrop "X" [⟨"X", "t", "", "todo", "", [], 0, none, none⟩]
        (5, 6) (some "Y")).2 =
      some { task_id := "X", depends_on_task_id := "Y" } ∧
    (handleDrop "X" [⟨"X", "t", "", "todo", "", [], 0, none, none⟩]
        (5, 6) (some "Y")).1 =
      some ("X", setDagPositionData (5, 6)) :=
  c9_drop_creates_dependent_edge "X"
    [⟨"X", "t", "", "todo", "", [], 0, none, none⟩] (5, 6) "Y"
    (by decide) (by decide) (by decide) (by decide)

/-- C10: converting a dependency record to an edge id and parsing it
back yields the dependency's own id, and every edge id that does not
start with the `"dep-"` marker parses to `null`.  (Strings are modelled
as their character lists.) -/
theorem c10_edge_id_roundtrip :
    (∀ d : TaskDependency,
      getDependencyIdFromEdgeId (createEdgeIdFromDependency d) =
        some d.id.toList) ∧
    (∀ s : EdgeId, depIdTag.isPrefixOf s = false →
      getDependencyIdFromEdgeId s = none) := by
  constructor
  · intro d
    unfold getDependencyIdFromEdgeId createEdgeIdFromDependency
    rw [if_pos]
    · simp [depIdTag]
    · simp [depIdTag, List.isPrefixOf]
  · intro s hs
    unfold getDependencyIdFromEdgeId
    rw [if_neg]
    simp [hs]

/-- Witness for C10 at the concrete dependency id `"42"` and the
concrete foreign edge id `"x"`. -/
theorem c10_edge_id_roundtrip_witness :
    getDependencyIdFromEdgeId
        (createEdgeIdFromDependency ⟨"42", "B", "A"⟩) =
      some "42".toList ∧
    getDependencyIdFromEdgeId ['x'] = none :=
  ⟨c10_edge_id_roundtrip.1 ⟨"42", "B", "A"⟩,
   c10_edge_id_roundtrip.2 ['x'] (by decide)⟩
